import Mathlib

/-!
# Verification of the receipt-auto-input agent core

A shallow embedding of the core logic of the `receipt_auto_input_agent_v3`
repository, together with theorems settling the specification's claims.

Embedded components (file names refer to the repository sources):

* the account-classification engine `getAccountInfo` (main server file),
  parameterised over the accounting master data, since the master JSON is
  runtime data loaded from `data/accounting_master.json`;
* the response normaliser `normalizeResponse` shared verbatim by
  `services/llm/gemini-service.js` and `openai-service.js`, with the JS
  runtime's `JSON.parse` abstracted as a parameter;
* the promise-based `Semaphore` class and the batch runner
  (`processImageWithSemaphore` + `Promise.allSettled` aggregation);
* the tax-row portion of `generateExcelFile`;
* the provider factory `createLLMWithFallback` over `config/llm-config.js`.

JavaScript strings are modelled as `List Char`; JS `String.prototype`
operations (`trim`, `toLowerCase`, `includes`, `startsWith`, `endsWith`,
`split`) are re-implemented below over `List Char`.  The JS whitespace
class is modelled by the common whitespace characters (space, tab, LF,
CR, VT, FF); none of the claims depends on the exotic Unicode members of
`\s`.  `toLowerCase` lowercases ASCII letters and leaves other code
points (in particular all Japanese text appearing in the sources) fixed,
which agrees with JS on every string the claims mention.
-/

namespace ReceiptAgent

/-- JS whitespace (the members of `\s` relevant here). -/
def isWs (c : Char) : Bool :=
  c = ' ' || c = '\t' || c = '\n' || c = '\r' || c = '\x0b' || c = '\x0c'

/-- JS `a.startsWith b` on character lists: `leadsWith pat s` holds when
`pat` is an initial segment of `s`. -/
def leadsWith : List Char → List Char → Bool
  | [], _ => true
  | _ :: _, [] => false
  | p :: ps, c :: cs => p == c && leadsWith ps cs

/-- JS `String.prototype.includes`: `hasSubstr hay needle` holds when
`needle` occurs contiguously inside `hay` (the empty needle always
occurs, as in JS). -/
def hasSubstr (hay needle : List Char) : Bool :=
  if leadsWith needle hay then true
  else
    match hay with
    | [] => false
    | _ :: t => hasSubstr t needle

/-- JS `String.prototype.toLowerCase`, restricted to ASCII case mapping. -/
def jsToLower (s : List Char) : List Char :=
  s.map Char.toLower

/-- Left-trim: drop leading JS whitespace. -/
def ltrim (s : List Char) : List Char :=
  s.dropWhile isWs

/-- Right-trim: drop trailing JS whitespace. -/
def rtrim (s : List Char) : List Char :=
  (ltrim s.reverse).reverse

/-- JS `String.prototype.trim`. -/
def jsTrim (s : List Char) : List Char :=
  rtrim (ltrim s)

/-- JS `a.endsWith b` on character lists. -/
def endsWithL (s pat : List Char) : Bool :=
  leadsWith pat.reverse s.reverse

/-- First-hit search: the JS pattern `for (x of xs) { if (f(x)) return … }`
used throughout `getAccountInfo`'s nested loops. -/
def firstSome : List α → (α → Option β) → Option β
  | [], _ => none
  | a :: as, f =>
    match f a with
    | some b => some b
    | none => firstSome as f

/-! ## Data model of the accounting master

`data/accounting_master.json` has the nested shape
`section → group → mainAccount → accountKey → account`, where an account
carries an optional `勘定科目コード` (code), an optional `勘定科目名`
(name) and an optional ordered `補助科目` list of `{code, name}` pairs.
JS `for … in` iteration order over these non-index string keys is
insertion order, so each level is modelled as an association list in
stored order.  An absent string field behaves exactly like `""` under the
JS truthiness tests the engine performs (`account["勘定科目名"] && …`,
`account["勘定科目コード"] || …`), and an absent `補助科目` behaves like
`[]` (both guards, `x && x.length > 0` and `if (x) for (sub of x)`,
degenerate identically), so those fields are modelled as `String` and
`List SubAccount` directly. -/

structure SubAccount where
  code : String
  name : String
deriving DecidableEq, Repr

structure Account where
  code : String
  name : String
  subAccounts : List SubAccount
deriving DecidableEq, Repr

/-- Level `accountKey → Account`, in stored key order. -/
abbrev MainAccount := List (String × Account)

/-- Level `mainKey → MainAccount`, in stored key order. -/
abbrev AccountGroup := List (String × MainAccount)

/-- Level `groupKey → AccountGroup`, in stored key order. -/
abbrev MasterSection := List (String × AccountGroup)

/-- The master object under `勘定科目_補助科目_統合システム`.  The engine
reads exactly the two sections `資産の部` and `損益の部`, each of which
may be absent (`if (!section) continue`). -/
structure Master where
  shisan : Option MasterSection
  soneki : Option MasterSection
deriving Repr

structure ClassificationResult where
  accountCode : String
  accountName : String
  subAccountCode : String
  subAccountName : String
deriving DecidableEq, Repr

/-- JS `account["勘定科目コード"] || accountKey.split("_")[0]`. -/
def accountCodeOf (accountKey : String) (account : Account) : String :=
  if account.code ≠ "" then account.code
  else ((accountKey.splitOn "_").headD "")

/-- The result built when the account's primary name matched
(`勘定科目名一致` branch of `getAccountInfo`): the first sub-account is
used when the `補助科目` list is non-empty, empty strings otherwise. -/
def primaryResult (accountKey : String) (account : Account) :
    ClassificationResult :=
  match account.subAccounts with
  | sub :: _ =>
    ⟨accountCodeOf accountKey account, account.name, sub.code, sub.name⟩
  | [] =>
    ⟨accountCodeOf accountKey account, account.name, "", ""⟩

/-- The result built when sub-account `sub` matched
(`補助科目名一致` branch of `getAccountInfo`). -/
def subResult (accountKey : String) (account : Account) (sub : SubAccount) :
    ClassificationResult :=
  ⟨accountCodeOf accountKey account, account.name, sub.code, sub.name⟩

/-- The per-leaf test of `getAccountInfo`: primary name first
(guarded by `account["勘定科目名"] &&`), then each sub-account name in
stored order. -/
def accountMatch (itemLower : List Char) (accountKey : String)
    (account : Account) : Option ClassificationResult :=
  if account.name ≠ "" &&
      hasSubstr itemLower (jsToLower account.name.data) then
    some (primaryResult accountKey account)
  else
    firstSome account.subAccounts fun sub =>
      if hasSubstr itemLower (jsToLower sub.name.data) then
        some (subResult accountKey account sub)
      else none

/-- Depth-first search of one section: groups, then main accounts, then
account keys, each in stored order. -/
def sectionLookup (itemLower : List Char) (sec : MasterSection) :
    Option ClassificationResult :=
  firstSome sec fun g =>
    firstSome g.2 fun mn =>
      firstSome mn.2 fun a =>
        accountMatch itemLower a.1 a.2

/-- Tier 1 of `getAccountInfo`: the master lookup over the sections
`資産の部` then `損益の部` (absent sections are skipped). -/
def masterLookup (itemLower : List Char) (m : Master) :
    Option ClassificationResult :=
  match (match m.shisan with
         | some s => sectionLookup itemLower s
         | none => none) with
  | some r => some r
  | none =>
    match m.soneki with
    | some s => sectionLookup itemLower s
    | none => none

/-- Test `kws.any (itemLower.includes ·)` — one `if (… || …)` keyword group. -/
def anyKw (itemLower : List Char) (kws : List String) : Bool :=
  kws.any fun kw => hasSubstr itemLower kw.data

/-- Curated tier: 絵本・おもちゃ・保育関連. -/
def kwHoiku : List String :=
  ["絵本", "えほん", "おもちゃ", "チョッキ", "あおむし", "ほっとけーき",
   "てんぷら", "もこもこ", "保育", "子供", "児童", "幼児"]

/-- Curated tier: 食材・食品関連. -/
def kwShokuzai : List String :=
  ["鶏", "豚", "肉", "野菜", "玉ねぎ", "にんじん", "じゃがいも", "牛乳",
   "食パン", "卵", "バナナ", "せんべい", "ゼリー", "プリン", "麦茶",
   "食材", "食品", "冷凍"]

/-- Curated tier: 写真・ビデオ撮影関連. -/
def kwPhoto : List String :=
  ["写真", "ビデオ", "撮影", "編集", "フォト", "工房"]

/-- Curated tier: 交通費関連. -/
def kwKotsu : List String :=
  ["交通費", "運搬", "機材", "移動"]

/-- Generic tier: 文房具 etc. (office consumables). -/
def kwBunbogu : List String :=
  ["文房具", "ペン", "ノート", "紙", "クリップ", "ファイル", "名刺",
   "封筒", "コピー", "印刷", "写真", "フィルム", "清掃", "掃除"]

/-- Generic tier: 切手 etc. (postage). -/
def kwKitte : List String :=
  ["切手", "はがき", "郵送", "郵便"]

/-- Generic tier: 電話 etc. (telecom). -/
def kwDenwa : List String :=
  ["電話", "ファックス", "携帯", "回線", "電報"]

/-- Generic tier: 電車 etc. (commuter transport). -/
def kwDensha : List String :=
  ["電車", "バス", "タクシー", "定期", "航空券", "乗車券", "出張", "旅費"]

/-- Generic tier: ガソリン etc. (vehicle/fuel). -/
def kwGasorin : List String :=
  ["ガソリン", "有料道路", "駐車", "車検", "部品"]

/-- Generic tier: 電気 etc. (utilities). -/
def kwDenki : List String :=
  ["電気", "水道", "ガス", "光熱", "灯油", "燃料"]

/-- Generic tier: 家賃 etc. (rent). -/
def kwYachin : List String :=
  ["家賃", "賃借", "駐車場", "土地"]

/-- Generic tier: 手数料 etc. (bank/processing fees). -/
def kwTesuryo : List String :=
  ["手数料", "振込", "報酬", "顧問", "監査", "委託"]

def hoikuResult : ClassificationResult :=
  ⟨"72640", "原価消耗品費", "0013", "保育材料費"⟩

def shokuzaiResult : ClassificationResult :=
  ⟨"72120", "一般商品仕入高", "0007", "食材仕入"⟩

def photoResult : ClassificationResult :=
  ⟨"74510", "広告宣伝費", "0001", "広告宣伝費"⟩

def kotsuResult : ClassificationResult :=
  ⟨"74530", "旅費交通費", "0004", "出張旅費"⟩

def bunboguResult : ClassificationResult :=
  ⟨"74610", "消耗品費", "0001", "事務用消耗品代"⟩

def kitteResult : ClassificationResult :=
  ⟨"74620", "通信費", "0001", "切手代"⟩

def denwaResult : ClassificationResult :=
  ⟨"74630", "支払電話料", "0001", "電話料"⟩

def denshaResult : ClassificationResult :=
  ⟨"74530", "旅費交通費", "0001", "通勤定期代"⟩

def gasorinResult : ClassificationResult :=
  ⟨"74540", "車両費", "0001", "ガソリン代"⟩

def denkiResult : ClassificationResult :=
  ⟨"74340", "水道光熱費", "0002", "電気代"⟩

def yachinResult : ClassificationResult :=
  ⟨"74310", "地代家賃", "0001", "支店事務所家賃"⟩

def tesuryoResult : ClassificationResult :=
  ⟨"74590", "支払手数料", "0001", "振込手数料"⟩

/-- Default（消耗品費）: the final fallback of `getAccountInfo`. -/
def defaultResult : ClassificationResult :=
  ⟨"74610", "消耗品費", "0001", "事務用消耗品代"⟩

/-- Tiers 2–4 of `getAccountInfo`: the curated keyword groups, the
generic keyword groups, and the default, in source order. -/
def keywordCascade (itemLower : List Char) : ClassificationResult :=
  if anyKw itemLower kwHoiku then hoikuResult
    else if anyKw itemLower kwShokuzai then shokuzaiResult
    else if anyKw itemLower kwPhoto then photoResult
    else if anyKw itemLower kwKotsu then kotsuResult
    else if anyKw itemLower kwBunbogu then bunboguResult
    else if anyKw itemLower kwKitte then kitteResult
    else if anyKw itemLower kwDenwa then denwaResult
    else if anyKw itemLower kwDensha then denshaResult
    else if anyKw itemLower kwGasorin then gasorinResult
    else if anyKw itemLower kwDenki then denkiResult
    else if anyKw itemLower kwYachin then yachinResult
    else if anyKw itemLower kwTesuryo then tesuryoResult
    else defaultResult

/-- Function `getAccountInfo(itemName)` from the main server file,
parameterised over the loaded master data `m`: the full four-tier
cascade — master lookup, curated keyword groups, generic keyword groups,
default. -/
def getAccountInfo (m : Master) (itemName : String) : ClassificationResult :=
  let itemLower := jsToLower itemName.data
  match masterLookup itemLower m with
  | some r => r
  | none => keywordCascade itemLower

/-! ## Spec-side view of the master lookup (for the traversal-order claim)

§4.1 of the specification describes the lookup as a flattening: the two
sections in declared order, then groups, main accounts and account keys
in stored order, and per leaf the primary name before the sub-account
names, the first containment match winning.  `specLookup` below is that
description transcribed literally; it is compared against `masterLookup`
(transcribed from the code) by theorem. -/

structure Candidate where
  pat : String
  res : ClassificationResult
deriving DecidableEq, Repr

/-- Per-leaf candidates, primary name (when present) before sub-account
names in stored order. -/
def accountCandidates (accountKey : String) (a : Account) : List Candidate :=
  (if a.name ≠ "" then [⟨a.name, primaryResult accountKey a⟩] else [])
    ++ a.subAccounts.map fun sub => ⟨sub.name, subResult accountKey a sub⟩

/-- All candidates of the master in the spec's declared traversal order. -/
def masterCandidates (m : Master) : List Candidate :=
  ((m.shisan.getD []) ++ (m.soneki.getD [])).flatMap fun g =>
    g.2.flatMap fun mn =>
      mn.2.flatMap fun a => accountCandidates a.1 a.2

/-- The spec's description of the lookup: first candidate, in flattened
order, whose (lower-cased) pattern occurs in the item description. -/
def specLookup (itemLower : List Char) (m : Master) :
    Option ClassificationResult :=
  firstSome (masterCandidates m) fun c =>
    if hasSubstr itemLower (jsToLower c.pat.data) then some c.res else none

/-- All leaf accounts reachable by the traversal, with their keys. -/
def masterAccounts (m : Master) : List (String × Account) :=
  ((m.shisan.getD []) ++ (m.soneki.getD [])).flatMap fun g =>
    g.2.flatMap fun mn => mn.2

/-- Well-formedness of loaded master data (§3: every `Account` carries a
code): every reachable leaf yields a non-empty account code. -/
abbrev masterWF (m : Master) : Prop :=
  ∀ p ∈ masterAccounts m, accountCodeOf p.1 p.2 ≠ ""

/-! ## Response normalisation

`normalizeResponse` is textually identical in `gemini-service.js`
(lines 152–203) and `openai-service.js`: trim, strip a leading
```` ```json ```` or ```` ``` ```` fence, strip a trailing ```` ``` ````
fence, `JSON.parse`; on parse failure classify apology/error phrases.
`JSON.parse` is the JS runtime's, abstracted here as a `parse` parameter
returning `Option J`. -/

def fence3 : List Char := ['`', '`', '`']

def fenceJson : List Char := ['`', '`', '`', 'j', 's', 'o', 'n']

/-- Step `if (content.startsWith('```json')) content = content.replace(/^```json\s*/, '')`. -/
def stripLeadJson (c : List Char) : List Char :=
  if leadsWith fenceJson c then (c.drop 7).dropWhile isWs else c

/-- Step `if (content.startsWith('```')) content = content.replace(/^```\s*/, '')`. -/
def stripLead3 (c : List Char) : List Char :=
  if leadsWith fence3 c then (c.drop 3).dropWhile isWs else c

/-- Step `if (content.endsWith('```')) content = content.replace(/\s*```$/, '')`. -/
def stripTrail3 (c : List Char) : List Char :=
  if endsWithL c fence3 then rtrim (c.take (c.length - 3)) else c

/-- The three fence-stripping `replace` steps applied to the trimmed
content, in source order. -/
def stripFences (c0 : List Char) : List Char :=
  stripTrail3 (stripLead3 (stripLeadJson c0))

/-- The `content` value as it reaches `JSON.parse`: trim, then fence stripping. -/
def cleanContent (raw : List Char) : List Char :=
  stripFences (jsTrim raw)

def msgUnclear : String :=
  "画像が不鮮明または読み取れませんでした。より鮮明な画像をアップロードしてください。"

def msgErrorHead : String := "画像処理中にエラーが発生しました: "

def msgExtract : String :=
  "画像から情報を抽出できませんでした。領収書が鮮明に写っているか確認してください。"

/-- Method `normalizeResponse(rawResponse)`: parse the cleaned content; on parse
failure inspect it for refusal phrases (`申し訳ありませんが` /
`申し訳ございません`), then generic error phrases (`エラー` / `error`),
and raise the corresponding domain error. -/
def normalizeResponse {J : Type} (parse : List Char → Option J)
    (raw : List Char) : Except String J :=
  match parse (cleanContent raw) with
  | some j => Except.ok j
  | none =>
    if hasSubstr (cleanContent raw) "申し訳ありませんが".data ||
        hasSubstr (cleanContent raw) "申し訳ございません".data then
      Except.error msgUnclear
    else if hasSubstr (cleanContent raw) "エラー".data ||
        hasSubstr (cleanContent raw) "error".data then
      Except.error (msgErrorHead ++ String.mk ((cleanContent raw).take 100))
    else
      Except.error msgExtract

/-- Wrapping a payload in a ```` ```json ```` fenced block, as the claim
about normalisation idempotence describes. -/
def wrapJsonFence (s : List Char) : List Char :=
  "```json\n".data ++ s ++ "\n```".data

/-- A string free of Markdown code fences: its trimmed form neither
starts nor ends with ```` ``` ````. -/
abbrev fenceFree (s : List Char) : Prop :=
  leadsWith fence3 (jsTrim s) = false ∧ endsWithL (jsTrim s) fence3 = false

/-! ## The promise-based semaphore

The `Semaphore` class of the main server file (lines 911–937).
JavaScript is single-threaded, so every interleaving of `acquire` and
`release` calls is a sequence; the class state is
`{maxConcurrent, currentConcurrent, queue}`, the queue holding the
pending `resolve` callbacks (modelled by waiter identifiers).  `acquire`
admits immediately below the ceiling and appends to the queue otherwise
(`queue.push`); `release` decrements, then if the queue is non-empty
shifts its head (`queue.shift`), re-increments and resolves it.
`currentConcurrent` is an unguarded JS number, so it is modelled as
`Int`. -/

structure Semaphore where
  maxConcurrent : Nat
  currentConcurrent : Int
  queue : List Nat
deriving DecidableEq, Repr

def Semaphore.init (n : Nat) : Semaphore := ⟨n, 0, []⟩

/-- Method `acquire()` called by waiter `w`: the second component is `some w` when the
promise resolves immediately, `none` when `w` was queued. -/
def Semaphore.acquire (s : Semaphore) (w : Nat) : Semaphore × Option Nat :=
  if s.currentConcurrent < (s.maxConcurrent : Int) then
    ({ s with currentConcurrent := s.currentConcurrent + 1 }, some w)
  else
    ({ s with queue := s.queue ++ [w] }, none)

/-- Method `release()`: the second component is the waiter whose `resolve` was
invoked, if any. -/
def Semaphore.release (s : Semaphore) : Semaphore × Option Nat :=
  match s.queue with
  | [] => ({ s with currentConcurrent := s.currentConcurrent - 1 }, none)
  | w :: rest =>
    ({ s with currentConcurrent := s.currentConcurrent - 1 + 1,
              queue := rest }, some w)

inductive SemEvent where
  | acquire (w : Nat)
  | release
deriving DecidableEq, Repr

def semStep (s : Semaphore) : SemEvent → Semaphore
  | .acquire w => (s.acquire w).1
  | .release => s.release.1

/-- The state after an arbitrary sequence of `acquire`/`release` calls on
`new Semaphore(n)`. -/
def semExec (n : Nat) (evs : List SemEvent) : Semaphore :=
  evs.foldl semStep (Semaphore.init n)

/-! ## The batch runner

Function `processImageWithSemaphore` (main server file, lines 940–963)
acquires a slot, runs `processReceiptOCR` for one file, and always
returns a record — `{success:true, fileId, fileName, result}` on
success, `{success:false, fileId, fileName, error}` when the call threw
(the `catch` branch); the slot is released in `finally`.  The handler
maps it over `Array.from(fileStorage.entries())` and awaits
`Promise.allSettled`, which yields one settlement per input in input
order.  The per-item extraction (`processReceiptOCR`, a network call) is
abstracted as `ocr : FileData → Except String R`; the admission gate only
schedules the calls and does not affect any item's record. -/

structure FileData where
  originalname : String
  buffer : String
deriving DecidableEq, Repr

structure BatchItemResult (R : Type) where
  success : Bool
  fileId : String
  fileName : String
  result : Option R
  error : Option String
deriving DecidableEq, Repr

/-- Function `processImageWithSemaphore(semaphore, fileId, fileData)`:
the settled value of one item's promise. -/
def processImageWithSemaphore {R : Type} (ocr : FileData → Except String R)
    (fileId : String) (fileData : FileData) : BatchItemResult R :=
  match ocr fileData with
  | Except.ok r => ⟨true, fileId, fileData.originalname, some r, none⟩
  | Except.error e => ⟨false, fileId, fileData.originalname, none, some e⟩

/-- The `results` array produced by `Promise.allSettled(processPromises)`
in the batch-process handler: one record per input entry, in input
order. -/
def batchProcess {R : Type} (ocr : FileData → Except String R)
    (files : List (String × FileData)) : List (BatchItemResult R) :=
  files.map fun f => processImageWithSemaphore ocr f.1 f.2

/-! ## Report rows of `generateExcelFile`

Only the `item_details` and `amount` columns of the emitted rows are
modelled — the columns the tax claim speaks about.  A receipt's numeric
fields `subtotal`, `tax`, `reduced_tax` are optional (`Option Int`,
`none` = absent); guards such as `receipt.tax && receipt.tax > 0`
translate to `t ≠ 0 ∧ 0 < t` on the carried value, and
`receipt.subtotal || receipt.amount` maps `none` and `some 0` to
`amount`. -/

structure LineItem where
  name : String
  amount : Int
deriving DecidableEq, Repr

structure Receipt where
  payee : String
  date : String
  subtotal : Option Int
  tax : Option Int
  reducedTax : Option Int
  amount : Int
  items : List LineItem
  itemDetails : Option String
deriving DecidableEq, Repr

/-- JS `receipt.subtotal || receipt.amount`. -/
def subtotalAmount (r : Receipt) : Int :=
  match r.subtotal with
  | some s => if s ≠ 0 then s else r.amount
  | none => r.amount

/-- The consumption-tax rows (`消費税行を追加` block, identical in the
items branch and the no-items branch): with a truthy positive `tax`,
either the two split rows (standard = `tax - reduced_tax`, reduced =
`reduced_tax`) when `reduced_tax` is truthy positive, or the single
combined row; no rows otherwise. -/
def taxRows (tax reducedTax : Option Int) : List (String × Int) :=
  match tax with
  | some t =>
    if t ≠ 0 ∧ 0 < t then
      match reducedTax with
      | some rt =>
        if rt ≠ 0 ∧ 0 < rt then
          [("消費税（標準税率）", t - rt), ("消費税（軽減税率）", rt)]
        else
          [("消費税", t)]
      | none => [("消費税", t)]
    else []
  | none => []

/-- Rows emitted for one receipt, projected to
`(item_details, amount)`: the item rows (or the single legacy row when
`items` is empty), the `小計` row, the tax rows, and the
`合計金額（税込）` row. -/
def receiptRows (r : Receipt) : List (String × Int) :=
  if r.items.length > 0 then
    (r.items.map fun it => (it.name, it.amount))
      ++ [("小計", subtotalAmount r)]
      ++ taxRows r.tax r.reducedTax
      ++ [("合計金額（税込）", r.amount)]
  else
    [(r.itemDetails.getD "", r.amount)]
      ++ [("小計", subtotalAmount r)]
      ++ taxRows r.tax r.reducedTax
      ++ [("合計金額（税込）", r.amount)]

/-- Data rows of `generateExcelFile(receiptData)` (header and the final
`全体合計` row aside), projected to `(item_details, amount)`. -/
def generateExcelRows (receiptData : List Receipt) : List (String × Int) :=
  receiptData.flatMap receiptRows

/-! ## LLM configuration and factory

Module `config/llm-config.js` reads the environment once into
`LLM_CONFIG`; the provider-relevant parts are the two API keys and the
two model names (with defaults `gpt-4o` and `gemini-1.5-flash` applied
through `process.env.X || default`).  An unset environment variable
behaves like `""` under the `!config.apiKey` test, so keys are modelled
as `String` with `""` for absent.  `LLMFactory` (llm-factory.js) builds
service instances from this configuration. -/

structure LLMEnv where
  openaiKey : String
  geminiKey : String
  openaiModel : String
  geminiModel : String
deriving DecidableEq, Repr

/-- JS `process.env.X || 'default'`. -/
def envOr (x dflt : String) : String :=
  if x ≠ "" then x else dflt

/-- Keys of `LLM_CONFIG` other than `provider` and `common`, in insertion
order — the value of `getAvailableProviders()`. -/
def availableProviders : List String := ["openai", "gemini"]

/-- The `apiKey` field of `LLM_CONFIG[p]` for the two provider entries. -/
def providerKey (env : LLMEnv) (p : String) : Option String :=
  if p = "openai" then some env.openaiKey
  else if p = "gemini" then some env.geminiKey
  else none

/-- The effective `model` field of `LLM_CONFIG[p]`. -/
def providerModel (env : LLMEnv) (p : String) : String :=
  if p = "openai" then envOr env.openaiModel "gpt-4o"
  else envOr env.geminiModel "gemini-1.5-flash"

/-- JS `String.prototype.toUpperCase`, restricted to ASCII. -/
def jsToUpper (s : String) : String :=
  String.mk (s.data.map Char.toUpper)

/-- Function `validateConfig(provider)` of `config/llm-config.js`:
unknown entry → `Unknown LLM provider`; entry without a truthy `apiKey`
(including the non-provider keys `provider` and `common`, whose values
carry no `apiKey` field) → `…_API_KEY environment variable is
required`. -/
def validateConfig (env : LLMEnv) (p : String) : Except String Unit :=
  match providerKey env p with
  | some k =>
    if k = "" then
      Except.error (jsToUpper p ++ "_API_KEY environment variable is required")
    else Except.ok ()
  | none =>
    if p = "provider" ∨ p = "common" then
      Except.error (jsToUpper p ++ "_API_KEY environment variable is required")
    else
      Except.error ("Unknown LLM provider: " ++ p)

def exceptOk : Except ε α → Bool
  | Except.ok _ => true
  | Except.error _ => false

/-- Function `getFallbackProvider()`: the first provider in
`getAvailableProviders()` whose configuration validates. -/
def getFallbackProvider (env : LLMEnv) : Option String :=
  availableProviders.find? fun p => exceptOk (validateConfig env p)

structure LLMService where
  provider : String
  apiKey : String
  model : String
deriving DecidableEq, Repr

/-- Construction of a service instance: the `BaseLLM` constructor
(`base-llm.js`) stores the config and immediately calls
`this.validateConfig()`, which the subclasses override — `!apiKey` raises
`<Provider> API key is required` and `!model` raises
`<Provider> model is required` (`openai-service.js` /
`gemini-service.js`); a passing validation yields the constructed
service. -/
def constructService (p apiKey model : String) : Except String LLMService :=
  let display := if p = "openai" then "OpenAI" else "Gemini"
  if apiKey = "" then Except.error (display ++ " API key is required")
  else if model = "" then Except.error (display ++ " model is required")
  else Except.ok ⟨p, apiKey, model⟩

/-- JS `provider.toLowerCase()` — the `normalizedProvider` local of
`createLLM`. -/
def normalizedProvider (provider : String) : String :=
  String.mk (jsToLower provider.data)

/-- Method `LLMFactory.createLLM(provider)` (with the `config` argument
left at its `null` default): name check, registry check, eager config
validation via `getProviderConfig`, then construction of the service
instance. -/
def createLLM (env : LLMEnv) (provider : String) : Except String LLMService :=
  if provider = "" then
    Except.error "Provider name is required and must be a string"
  else if normalizedProvider provider ≠ "openai" ∧
      normalizedProvider provider ≠ "gemini" then
    Except.error ("Unsupported provider: " ++ provider ++
      ". Available providers: openai, gemini")
  else
    match validateConfig env (normalizedProvider provider) with
    | Except.error e => Except.error e
    | Except.ok _ =>
      constructService (normalizedProvider provider)
        ((providerKey env (normalizedProvider provider)).getD "")
        (providerModel env (normalizedProvider provider))

/-- Method `LLMFactory.createLLMWithFallback(primaryProvider)`: try the
primary; on failure fall back to `getFallbackProvider()`, raising only
when that returns `null`. -/
def createLLMWithFallback (env : LLMEnv) (primary : String) :
    Except String LLMService :=
  match createLLM env primary with
  | Except.ok s => Except.ok s
  | Except.error e =>
    match getFallbackProvider env with
    | none =>
      Except.error ("No available LLM providers. Primary: " ++ primary ++
        ", Error: " ++ e)
    | some fb => createLLM env fb

/-! ## Lemmas about `firstSome` -/

theorem firstSome_append (xs ys : List α) (f : α → Option β) :
    firstSome (xs ++ ys) f =
      match firstSome xs f with
      | some b => some b
      | none => firstSome ys f := by
  induction xs with
  | nil => simp [firstSome]
  | cons a as ih =>
    simp only [List.cons_append, firstSome]
    cases f a <;> simp [ih]

theorem firstSome_map (g : γ → α) (xs : List γ) (f : α → Option β) :
    firstSome (xs.map g) f = firstSome xs (fun x => f (g x)) := by
  induction xs with
  | nil => simp [firstSome]
  | cons a as ih =>
    simp only [List.map_cons, firstSome]
    cases f (g a) <;> simp [ih]

theorem firstSome_mem {xs : List α} {f : α → Option β} {b : β}
    (h : firstSome xs f = some b) : ∃ a ∈ xs, f a = some b := by
  induction xs with
  | nil => simp [firstSome] at h
  | cons a as ih =>
    simp only [firstSome] at h
    cases hfa : f a with
    | some c =>
      rw [hfa] at h
      exact ⟨a, List.mem_cons_self a as, by simpa [hfa] using h⟩
    | none =>
      rw [hfa] at h
      obtain ⟨x, hx, hfx⟩ := ih h
      exact ⟨x, List.mem_cons_of_mem a hx, hfx⟩

theorem firstSome_flatMap (xs : List α) (g : α → List γ) (f : γ → Option β) :
    firstSome (xs.flatMap g) f =
      firstSome xs (fun x => firstSome (g x) f) := by
  induction xs with
  | nil => simp [firstSome]
  | cons a as ih =>
    rw [List.flatMap_cons, firstSome_append]
    simp only [firstSome]
    cases firstSome (g a) f <;> simp [ih]

/-! ## The master lookup agrees with its spec-side flattening -/

theorem accountMatch_eq_candidates (item : List Char) (key : String)
    (a : Account) :
    accountMatch item key a =
      firstSome (accountCandidates key a) fun c =>
        if hasSubstr item (jsToLower c.pat.data) then some c.res
        else none := by
  unfold accountMatch accountCandidates
  by_cases hn : a.name = ""
  · simp [hn, firstSome_map]
  · by_cases hs : hasSubstr item (jsToLower a.name.data) = true
    · simp [hn, hs, firstSome]
    · simp [hn, hs, firstSome, firstSome_map]

theorem sectionLookup_eq_candidates (item : List Char) (sec : MasterSection) :
    sectionLookup item sec =
      firstSome
        (sec.flatMap fun g =>
          g.2.flatMap fun mn => mn.2.flatMap fun a => accountCandidates a.1 a.2)
        (fun c =>
          if hasSubstr item (jsToLower c.pat.data) then some c.res
          else none) := by
  unfold sectionLookup
  rw [firstSome_flatMap]
  congr 1
  funext g
  rw [firstSome_flatMap]
  congr 1
  funext mn
  rw [firstSome_flatMap]
  congr 1
  funext a
  exact accountMatch_eq_candidates item a.1 a.2

/-- C9 — Master lookup order: the code's nested-loop lookup
(`masterLookup`, transcribed from `getAccountInfo`'s tier 1) coincides
with the spec's description (`specLookup`): flatten the two sections
資産の部 then 損益の部 in declared order, then groups, main accounts and
account keys in stored order, per leaf the primary name before the
sub-account names in stored list order, and return the first
containment match. -/
theorem masterLookup_eq_specLookup (item : List Char) (m : Master) :
    masterLookup item m = specLookup item m := by
  unfold specLookup masterCandidates
  rw [List.flatMap_append, firstSome_append,
    ← sectionLookup_eq_candidates, ← sectionLookup_eq_candidates]
  unfold masterLookup
  cases m.shisan with
  | none =>
    cases m.soneki with
    | none => simp [sectionLookup, firstSome]
    | some so => simp [sectionLookup, firstSome]
  | some sh =>
    cases m.soneki with
    | none =>
      simp only [Option.getD_some, Option.getD_none]
      rw [show sectionLookup item ([] : MasterSection) = none from rfl]
      cases h : sectionLookup item sh <;> simp [h]
    | some so =>
      cases h : sectionLookup item sh <;> simp [h]

/-! ## Classification claims -/

/-- C2 — Cascade precedence: when the item description yields a
master-data match (tier 1 returns a result) and also contains a curated
keyword (any trigger of the four tier-2 groups, e.g. 絵本), the engine
returns the master-data result, not the curated group's fixed result. -/
theorem getAccountInfo_master_precedence (m : Master) (s : String)
    (r : ClassificationResult)
    (hm : masterLookup (jsToLower s.data) m = some r)
    (_hkw : anyKw (jsToLower s.data)
      (kwHoiku ++ kwShokuzai ++ kwPhoto ++ kwKotsu) = true) :
    getAccountInfo m s = r := by
  show (match masterLookup (jsToLower s.data) m with
        | some r => r
        | none => keywordCascade (jsToLower s.data)) = r
  rw [hm]

/-- Shared witness fixture: a small master holding the account 現金 with
sub-account 小口現金. -/
def cashMaster : Master :=
  { shisan := some [("流動資産", [("現金預金", [("10010_現金",
      ⟨"10010", "現金", [⟨"0001", "小口現金"⟩]⟩)])])],
    soneki := none }

/-- Witness for C2: the description 現金絵本 matches both the master
account 現金 and the curated keyword 絵本; the master result wins. -/
theorem getAccountInfo_master_precedence_witness :
    getAccountInfo cashMaster "現金絵本" =
      ⟨"10010", "現金", "0001", "小口現金"⟩ :=
  getAccountInfo_master_precedence cashMaster "現金絵本"
    ⟨"10010", "現金", "0001", "小口現金"⟩ (by decide) (by decide)

/-- No keyword group of tiers 2 and 3 fires on the item description. -/
abbrev matchesNoKeywordGroup (itemLower : List Char) : Prop :=
  anyKw itemLower kwHoiku = false ∧
  anyKw itemLower kwShokuzai = false ∧
  anyKw itemLower kwPhoto = false ∧
  anyKw itemLower kwKotsu = false ∧
  anyKw itemLower kwBunbogu = false ∧
  anyKw itemLower kwKitte = false ∧
  anyKw itemLower kwDenwa = false ∧
  anyKw itemLower kwDensha = false ∧
  anyKw itemLower kwGasorin = false ∧
  anyKw itemLower kwDenki = false ∧
  anyKw itemLower kwYachin = false ∧
  anyKw itemLower kwTesuryo = false

/-- C8 — Default fallback: a description matching no master entry, no
curated group and no generic group yields exactly
`{74610, 消耗品費, 0001, 事務用消耗品代}`. -/
theorem getAccountInfo_default (m : Master) (s : String)
    (hm : masterLookup (jsToLower s.data) m = none)
    (hkw : matchesNoKeywordGroup (jsToLower s.data)) :
    getAccountInfo m s = defaultResult := by
  obtain ⟨h1, h2, h3, h4, h5, h6, h7, h8, h9, h10, h11, h12⟩ := hkw
  show (match masterLookup (jsToLower s.data) m with
        | some r => r
        | none => keywordCascade (jsToLower s.data)) = defaultResult
  rw [hm]
  unfold keywordCascade
  simp [h1, h2, h3, h4, h5, h6, h7, h8, h9, h10, h11, h12]

/-- Witness for C8: the description `xyz` against the 現金 master matches
nothing and falls through to the default. -/
theorem getAccountInfo_default_witness :
    getAccountInfo cashMaster "xyz" = defaultResult :=
  getAccountInfo_default cashMaster "xyz" (by decide) (by decide)

/-- Every candidate of a leaf account carries that account's code. -/
theorem candidate_code (key : String) (a : Account) (c : Candidate)
    (h : c ∈ accountCandidates key a) :
    c.res.accountCode = accountCodeOf key a := by
  unfold accountCandidates at h
  rcases List.mem_append.mp h with h1 | h2
  · by_cases hn : a.name = ""
    · simp [hn] at h1
    · simp [hn] at h1
      subst h1
      show (primaryResult key a).accountCode = _
      unfold primaryResult
      cases a.subAccounts <;> rfl
  · obtain ⟨sub, _, hc⟩ := List.mem_map.mp h2
    subst hc
    rfl

/-- Every candidate of the master comes from some reachable leaf
account. -/
theorem masterCandidates_account {m : Master} {c : Candidate}
    (h : c ∈ masterCandidates m) :
    ∃ p ∈ masterAccounts m, c ∈ accountCandidates p.1 p.2 := by
  unfold masterCandidates at h
  unfold masterAccounts
  rw [List.mem_flatMap] at h
  obtain ⟨g, hg, h⟩ := h
  rw [List.mem_flatMap] at h
  obtain ⟨mn, hmn, h⟩ := h
  rw [List.mem_flatMap] at h
  obtain ⟨a, ha, hc⟩ := h
  refine ⟨a, ?_, hc⟩
  rw [List.mem_flatMap]
  exact ⟨g, hg, List.mem_flatMap.mpr ⟨mn, hmn, ha⟩⟩

/-- A successful master lookup returns a non-empty account code whenever
the master data is well-formed. -/
theorem masterLookup_accountCode {item : List Char} {m : Master}
    {r : ClassificationResult} (hwf : masterWF m)
    (h : masterLookup item m = some r) : r.accountCode ≠ "" := by
  rw [masterLookup_eq_specLookup] at h
  obtain ⟨c, hc, htest⟩ := firstSome_mem h
  have hres : c.res = r := by
    split at htest
    · exact Option.some.inj htest
    · exact absurd htest (by simp)
  obtain ⟨p, hp, hcand⟩ := masterCandidates_account hc
  have hcode := candidate_code p.1 p.2 c hcand
  rw [hres] at hcode
  rw [hcode]
  exact hwf p hp

/-- C1 — Classification totality: for every non-empty item description,
`getAccountInfo` (a total function in this embedding — the source never
throws on string input over well-formed master data) returns a
`ClassificationResult` with all four fields present and a non-empty
`accountCode`, including when the matched master account's sub-account
list is empty. -/
theorem getAccountInfo_total (m : Master) (s : String)
    (hwf : masterWF m) (_hs : s ≠ "") :
    (getAccountInfo m s).accountCode ≠ "" := by
  show (match masterLookup (jsToLower s.data) m with
        | some r => r
        | none => keywordCascade (jsToLower s.data)).accountCode ≠ ""
  cases h : masterLookup (jsToLower s.data) m with
  | some r => exact masterLookup_accountCode hwf h
  | none =>
    show (keywordCascade (jsToLower s.data)).accountCode ≠ ""
    unfold keywordCascade
    generalize anyKw (jsToLower s.data) kwHoiku = b1
    generalize anyKw (jsToLower s.data) kwShokuzai = b2
    generalize anyKw (jsToLower s.data) kwPhoto = b3
    generalize anyKw (jsToLower s.data) kwKotsu = b4
    generalize anyKw (jsToLower s.data) kwBunbogu = b5
    generalize anyKw (jsToLower s.data) kwKitte = b6
    generalize anyKw (jsToLower s.data) kwDenwa = b7
    generalize anyKw (jsToLower s.data) kwDensha = b8
    generalize anyKw (jsToLower s.data) kwGasorin = b9
    generalize anyKw (jsToLower s.data) kwDenki = b10
    generalize anyKw (jsToLower s.data) kwYachin = b11
    generalize anyKw (jsToLower s.data) kwTesuryo = b12
    revert b1 b2 b3 b4 b5 b6 b7 b8 b9 b10 b11 b12
    decide

/-- Shared witness fixture: a master whose single account 消耗品費 has an
empty 補助科目 list — the edge case C1 singles out. -/
def emptySubMaster : Master :=
  { shisan := none,
    soneki := some [("販売費", [("経費", [("74610_消耗品費",
      ⟨"74610", "消耗品費", []⟩)])])] }

/-- Witness for C1: 消耗品費セット matches the primary name of an account
whose sub-account list is empty, and the account code is still
non-empty. -/
theorem getAccountInfo_total_witness :
    (getAccountInfo emptySubMaster "消耗品費セット").accountCode ≠ "" :=
  getAccountInfo_total emptySubMaster "消耗品費セット" (by decide) (by decide)

/-! ## Semaphore claims -/

/-- The ceiling invariant is preserved by every event. -/
theorem semStep_inv (s : Semaphore) (e : SemEvent)
    (h : s.currentConcurrent ≤ (s.maxConcurrent : Int)) :
    (semStep s e).currentConcurrent ≤ ((semStep s e).maxConcurrent : Int) ∧
    (semStep s e).maxConcurrent = s.maxConcurrent := by
  cases e with
  | acquire w =>
    by_cases hc : s.currentConcurrent < (s.maxConcurrent : Int)
    · have h1 : semStep s (SemEvent.acquire w) =
          { s with currentConcurrent := s.currentConcurrent + 1 } := by
        unfold semStep Semaphore.acquire
        simp [hc]
      rw [h1]
      refine ⟨?_, rfl⟩
      show s.currentConcurrent + 1 ≤ (s.maxConcurrent : Int)
      omega
    · have h1 : semStep s (SemEvent.acquire w) =
          { s with queue := s.queue ++ [w] } := by
        unfold semStep Semaphore.acquire
        simp [hc]
      rw [h1]
      exact ⟨h, rfl⟩
  | release =>
    cases hq : s.queue with
    | nil =>
      have h1 : semStep s SemEvent.release =
          { s with currentConcurrent := s.currentConcurrent - 1 } := by
        unfold semStep Semaphore.release
        rw [hq]
      rw [h1]
      refine ⟨?_, rfl⟩
      show s.currentConcurrent - 1 ≤ (s.maxConcurrent : Int)
      omega
    | cons w rest =>
      have h1 : semStep s SemEvent.release =
          { s with currentConcurrent := s.currentConcurrent - 1 + 1,
                   queue := rest } := by
        unfold semStep Semaphore.release
        rw [hq]
      rw [h1]
      refine ⟨?_, rfl⟩
      show s.currentConcurrent - 1 + 1 ≤ (s.maxConcurrent : Int)
      omega

/-- The ceiling invariant propagates through any event sequence. -/
theorem semFold_inv (evs : List SemEvent) (s : Semaphore)
    (hs : s.currentConcurrent ≤ (s.maxConcurrent : Int)) :
    (evs.foldl semStep s).currentConcurrent ≤
      ((evs.foldl semStep s).maxConcurrent : Int) ∧
    (evs.foldl semStep s).maxConcurrent = s.maxConcurrent := by
  induction evs generalizing s with
  | nil => exact ⟨hs, rfl⟩
  | cons e evs ih =>
    rw [List.foldl_cons]
    have h2 := semStep_inv s e hs
    obtain ⟨ha, hb⟩ := ih (semStep s e) h2.1
    exact ⟨ha, hb.trans h2.2⟩

/-- The ceiling invariant holds in every reachable state. -/
theorem semExec_inv (n : Nat) (evs : List SemEvent) :
    (semExec n evs).currentConcurrent ≤ ((semExec n evs).maxConcurrent : Int) ∧
    (semExec n evs).maxConcurrent = n := by
  unfold semExec
  refine semFold_inv evs (Semaphore.init n) ?_
  show (0 : Int) ≤ (n : Int)
  omega

/-- C3 — Concurrency ceiling and FIFO admission: starting from
`new Semaphore(n)`, after any interleaving of `acquire`/`release` calls
`currentConcurrent` never exceeds `n`; `acquire` at the ceiling appends
the caller to the tail of the wait queue, and `release` with a non-empty
queue admits exactly the queue's head (the earliest-queued waiter). -/
theorem semaphore_ceiling_fifo (n : Nat) (evs : List SemEvent)
    (s : Semaphore) (w v : Nat) (rest : List Nat)
    (hq : s.queue = w :: rest)
    (hfull : ¬ s.currentConcurrent < (s.maxConcurrent : Int)) :
    (semExec n evs).currentConcurrent ≤ (n : Int) ∧
    s.release.2 = some w ∧
    s.release.1.queue = rest ∧
    (s.acquire v).1.queue = s.queue ++ [v] := by
  refine ⟨?_, ?_, ?_, ?_⟩
  · obtain ⟨ha, hb⟩ := semExec_inv n evs
    rw [hb] at ha
    exact ha
  · unfold Semaphore.release
    rw [hq]
  · unfold Semaphore.release
    rw [hq]
  · unfold Semaphore.acquire
    simp [hfull]

/-- Witness for C3: `N = 2` with five acquires admits two and queues
three; releasing then admits waiter 3, the earliest queued. -/
theorem semaphore_ceiling_fifo_witness :
    (semExec 2 [SemEvent.acquire 1, SemEvent.acquire 2, SemEvent.acquire 3,
      SemEvent.acquire 4, SemEvent.acquire 5]).currentConcurrent ≤ (2 : Int) ∧
    (Semaphore.release ⟨2, 2, [3, 4, 5]⟩).2 = some 3 ∧
    (Semaphore.release ⟨2, 2, [3, 4, 5]⟩).1.queue = [4, 5] ∧
    (Semaphore.acquire ⟨2, 2, [3, 4, 5]⟩ 6).1.queue = [3, 4, 5] ++ [6] :=
  semaphore_ceiling_fifo 2
    [SemEvent.acquire 1, SemEvent.acquire 2, SemEvent.acquire 3,
      SemEvent.acquire 4, SemEvent.acquire 5]
    ⟨2, 2, [3, 4, 5]⟩ 3 6 [4, 5] rfl (by decide)

/-! ## Batch-runner claim -/

/-- C4 — No item loss: for every non-empty batch and every mix of
throwing and succeeding per-item extractions, the settled results have
exactly one record per input, ids in input order (so each input id
appears exactly once), and every record is either tagged
`success: true` with a result and no error, or `success: false` with a
captured error message and no result. -/
theorem batchProcess_no_item_loss {R : Type} (ocr : FileData → Except String R)
    (files : List (String × FileData)) (_hne : files ≠ []) :
    (batchProcess ocr files).length = files.length ∧
    (batchProcess ocr files).map (fun r => r.fileId) =
      files.map (fun f => f.1) ∧
    ∀ r ∈ batchProcess ocr files,
      (r.success = true ∧ (∃ v, r.result = some v) ∧ r.error = none) ∨
      (r.success = false ∧ r.result = none ∧ ∃ e, r.error = some e) := by
  refine ⟨by simp [batchProcess], ?_, ?_⟩
  · unfold batchProcess
    rw [List.map_map]
    apply List.map_congr_left
    intro f _
    simp only [Function.comp_apply]
    unfold processImageWithSemaphore
    cases ocr f.2 <;> rfl
  · intro r hr
    unfold batchProcess at hr
    obtain ⟨f, _, hf⟩ := List.mem_map.mp hr
    unfold processImageWithSemaphore at hf
    cases hocr : ocr f.2 with
    | ok v =>
      rw [hocr] at hf
      subst hf
      exact Or.inl ⟨rfl, ⟨v, rfl⟩, rfl⟩
    | error e =>
      rw [hocr] at hf
      subst hf
      exact Or.inr ⟨rfl, rfl, ⟨e, rfl⟩⟩

/-- Shared witness fixture: an extraction that throws exactly on the
buffer `bad`. -/
def ocrFixture : FileData → Except String String := fun fd =>
  if fd.buffer = "bad" then Except.error "boom" else Except.ok fd.buffer

/-- Shared witness fixture: a two-item batch, the second item failing. -/
def filesFixture : List (String × FileData) :=
  [("f1", ⟨"a.jpg", "good"⟩), ("f2", ⟨"b.jpg", "bad"⟩)]

/-- Witness for C4: a concrete two-item batch with one failure keeps both
records, in input-id order. -/
theorem batchProcess_no_item_loss_witness :
    (batchProcess ocrFixture filesFixture).length = 2 ∧
    (batchProcess ocrFixture filesFixture).map (fun r => r.fileId) =
      ["f1", "f2"] :=
  ⟨(batchProcess_no_item_loss ocrFixture filesFixture (by decide)).1,
   (batchProcess_no_item_loss ocrFixture filesFixture (by decide)).2.1⟩

/-! ## Tax-decomposition claim -/

/-- The tax rows are always embedded in the rows of the receipt, in both
the items branch and the legacy branch. -/
theorem taxRows_subset_receiptRows (r : Receipt) (x : String × Int)
    (h : x ∈ taxRows r.tax r.reducedTax) : x ∈ receiptRows r := by
  unfold receiptRows
  split <;> simp [List.mem_append, h]

/-- C6 — Tax decomposition: with `tax = t > 0` and `reduced_tax = rt > 0`
the emitted tax rows are exactly the standard-rate row with amount
`t - rt` and the reduced-rate row with amount `rt` (both appearing among
the receipt's report rows); with `reduced_tax` absent or `0`, exactly the
single combined row with amount `t` is emitted (and appears among the
rows). -/
theorem tax_decomposition (r : Receipt) (t : Int)
    (ht : r.tax = some t) (hpos : 0 < t) :
    (∀ rt : Int, r.reducedTax = some rt → 0 < rt →
      taxRows r.tax r.reducedTax =
        [("消費税（標準税率）", t - rt), ("消費税（軽減税率）", rt)] ∧
      ("消費税（標準税率）", t - rt) ∈ receiptRows r ∧
      ("消費税（軽減税率）", rt) ∈ receiptRows r) ∧
    ((r.reducedTax = none ∨ r.reducedTax = some 0) →
      taxRows r.tax r.reducedTax = [("消費税", t)] ∧
      ("消費税", t) ∈ receiptRows r) := by
  constructor
  · intro rt hrt hrtpos
    have hrows : taxRows r.tax r.reducedTax =
        [("消費税（標準税率）", t - rt), ("消費税（軽減税率）", rt)] := by
      rw [ht, hrt]
      unfold taxRows
      simp [ne_of_gt hpos, hpos, ne_of_gt hrtpos, hrtpos]
    refine ⟨hrows, ?_, ?_⟩
    · exact taxRows_subset_receiptRows r _ (by rw [hrows]; simp)
    · exact taxRows_subset_receiptRows r _ (by rw [hrows]; simp)
  · intro hrt
    have hrows : taxRows r.tax r.reducedTax = [("消費税", t)] := by
      rcases hrt with hrt | hrt <;>
        · rw [ht, hrt]
          unfold taxRows
          simp [ne_of_gt hpos, hpos]
    exact ⟨hrows, taxRows_subset_receiptRows r _ (by rw [hrows]; simp)⟩

/-- Shared witness fixture: a receipt with `tax = 100`,
`reduced_tax = 30`. -/
def receiptSplit : Receipt :=
  { payee := "店", date := "2024/01/01", subtotal := some 1000,
    tax := some 100, reducedTax := some 30, amount := 1100,
    items := [⟨"牛乳", 500⟩, ⟨"洗剤", 500⟩], itemDetails := none }

/-- Shared witness fixture: the same receipt with `reduced_tax`
absent. -/
def receiptCombined : Receipt :=
  { payee := "店", date := "2024/01/01", subtotal := some 1000,
    tax := some 100, reducedTax := none, amount := 1100,
    items := [⟨"牛乳", 500⟩, ⟨"洗剤", 500⟩], itemDetails := none }

/-- Witness for C6: `tax = 100`, `reduced_tax = 30` yields the 70/30
split, and with `reduced_tax` absent the single 100 row. -/
theorem tax_decomposition_witness :
    taxRows receiptSplit.tax receiptSplit.reducedTax =
      [("消費税（標準税率）", 70), ("消費税（軽減税率）", 30)] ∧
    taxRows receiptCombined.tax receiptCombined.reducedTax =
      [("消費税", 100)] := by
  constructor
  · have h := (tax_decomposition receiptSplit 100 rfl (by decide)).1
      30 rfl (by decide)
    simpa using h.1
  · have h := (tax_decomposition receiptCombined 100 rfl (by decide)).2
      (Or.inl rfl)
    exact h.1

/-! ## Provider-fallback claim -/

/-- A provider of the registry with a validating configuration always
constructs successfully, yielding a service of that provider. -/
theorem createLLM_ok_of_valid (env : LLMEnv) (p : String)
    (hp : p ∈ availableProviders)
    (hv : exceptOk (validateConfig env p) = true) :
    ∃ s : LLMService, createLLM env p = Except.ok s ∧ s.provider = p := by
  have hcase : p = "openai" ∨ p = "gemini" := by
    simpa [availableProviders] using hp
  rcases hcase with hcase | hcase <;> subst hcase
  · unfold validateConfig providerKey at hv
    simp only [if_pos rfl] at hv
    by_cases hk : env.openaiKey = ""
    · simp [hk, exceptOk] at hv
    · refine ⟨⟨"openai", env.openaiKey, envOr env.openaiModel "gpt-4o"⟩, ?_, rfl⟩
      have hlow : normalizedProvider "openai" = "openai" := by decide
      unfold createLLM validateConfig providerKey constructService
      rw [hlow]
      simp [hk, envOr]
      by_cases hm : env.openaiModel = "" <;> simp [providerModel, envOr, hm]
  · unfold validateConfig providerKey at hv
    simp only [if_neg (by decide : ¬("gemini" = "openai")), if_pos rfl] at hv
    by_cases hk : env.geminiKey = ""
    · simp [hk, exceptOk] at hv
    · refine ⟨⟨"gemini", env.geminiKey, envOr env.geminiModel "gemini-1.5-flash"⟩,
        ?_, rfl⟩
      have hlow : normalizedProvider "gemini" = "gemini" := by decide
      unfold createLLM validateConfig providerKey constructService
      rw [hlow]
      simp [hk, envOr]
      by_cases hm : env.geminiModel = "" <;> simp [providerModel, envOr, hm]

/-- C7 — Provider fallback: when the primary provider is registered but
its API key is missing while some registry provider validates,
`createLLMWithFallback` returns a constructed instance of a
validly-configured provider different from the primary; and in general
it raises only when no registry provider's configuration validates. -/
theorem createLLMWithFallback_fallback (env : LLMEnv) (primary q : String)
    (hp : primary ∈ availableProviders)
    (hkey : providerKey env primary = some "")
    (hq : q ∈ availableProviders)
    (hqv : exceptOk (validateConfig env q) = true) :
    (∃ s : LLMService, createLLMWithFallback env primary = Except.ok s ∧
      s.provider ∈ availableProviders ∧
      exceptOk (validateConfig env s.provider) = true ∧
      s.provider ≠ primary) ∧
    (∀ (env2 : LLMEnv) (primary2 e2 : String),
      createLLMWithFallback env2 primary2 = Except.error e2 →
      ∀ p ∈ availableProviders, exceptOk (validateConfig env2 p) = false) := by
  have hinvalid : exceptOk (validateConfig env primary) = false := by
    unfold validateConfig
    rw [hkey]
    simp [exceptOk]
  have hfb : ∃ fb, getFallbackProvider env = some fb := by
    have : (getFallbackProvider env).isSome := by
      unfold getFallbackProvider
      exact List.find?_isSome.mpr ⟨q, hq, hqv⟩
    exact Option.isSome_iff_exists.mp this
  obtain ⟨fb, hfbv⟩ := hfb
  have hfbv2 : availableProviders.find?
      (fun p => exceptOk (validateConfig env p)) = some fb := hfbv
  have hfbmem : fb ∈ availableProviders := List.mem_of_find?_eq_some hfbv2
  have hfbok : exceptOk (validateConfig env fb) = true :=
    @List.find?_some String (fun x => exceptOk (validateConfig env x))
      fb availableProviders hfbv2
  have hfbne : fb ≠ primary := by
    intro hcontra
    rw [hcontra] at hfbok
    rw [hinvalid] at hfbok
    exact Bool.false_ne_true hfbok
  constructor
  · obtain ⟨sv, hsv, hsvp⟩ := createLLM_ok_of_valid env fb hfbmem hfbok
    have hprim : ∃ e, createLLM env primary = Except.error e := by
      have hcase : primary = "openai" ∨ primary = "gemini" := by
        simpa [availableProviders] using hp
      rcases hcase with hcase | hcase <;> subst hcase
      · have hlow : normalizedProvider "openai" = "openai" := by decide
        unfold createLLM validateConfig
        rw [hlow, hkey]
        simp
      · have hlow : normalizedProvider "gemini" = "gemini" := by decide
        unfold createLLM validateConfig
        rw [hlow, hkey]
        simp
    obtain ⟨e, he⟩ := hprim
    refine ⟨sv, ?_, ?_, ?_, ?_⟩
    · unfold createLLMWithFallback
      rw [he, hfbv]
      exact hsv
    · rw [hsvp]; exact hfbmem
    · rw [hsvp]; exact hfbok
    · rw [hsvp]; exact hfbne
  · intro env2 primary2 e2 herr p hpmem
    unfold createLLMWithFallback at herr
    cases hc : createLLM env2 primary2 with
    | ok s => rw [hc] at herr; exact absurd herr (by simp)
    | error e =>
      rw [hc] at herr
      cases hfb2 : getFallbackProvider env2 with
      | none =>
        have hfb3 : availableProviders.find?
            (fun p => exceptOk (validateConfig env2 p)) = none := hfb2
        have := List.find?_eq_none.mp hfb3 p hpmem
        simpa using this
      | some fb2 =>
        rw [hfb2] at herr
        have hfb3 : availableProviders.find?
            (fun p => exceptOk (validateConfig env2 p)) = some fb2 := hfb2
        have hmem2 : fb2 ∈ availableProviders :=
          List.mem_of_find?_eq_some hfb3
        have hok2 : exceptOk (validateConfig env2 fb2) = true :=
          @List.find?_some String (fun x => exceptOk (validateConfig env2 x))
            fb2 availableProviders hfb3
        obtain ⟨sv2, hsv2, _⟩ := createLLM_ok_of_valid env2 fb2 hmem2 hok2
        have herr2 : createLLM env2 fb2 = Except.error e2 := herr
        rw [hsv2] at herr2
        exact absurd herr2 (by simp)

/-- Shared witness fixture: only the Gemini key is configured. -/
def envGeminiOnly : LLMEnv := ⟨"", "gk", "", ""⟩

/-- Witness for C7: with no OpenAI key and a Gemini key present,
constructing with primary `openai` falls back to a working provider
instead of raising. -/
theorem createLLMWithFallback_fallback_witness :
    exceptOk (createLLMWithFallback envGeminiOnly "openai") = true := by
  obtain ⟨s, hs, _, _, _⟩ :=
    (createLLMWithFallback_fallback envGeminiOnly "openai" "gemini"
      (by decide) (by decide) (by decide) (by decide)).1
  rw [hs]
  rfl

/-! ## Response-normalisation bypass claim -/

/-- C10 — Parse success bypasses refusal detection: whenever the cleaned
content parses as JSON, `normalizeResponse` returns the parsed value and
never raises — regardless of any refusal or error phrases in the text —
and conversely it raises only when the parse of the cleaned content
fails. -/
theorem normalizeResponse_parse_bypass {J : Type}
    (parse : List Char → Option J) (raw : List Char) :
    (∀ j : J, parse (cleanContent raw) = some j →
      normalizeResponse parse raw = Except.ok j) ∧
    (∀ e : String, normalizeResponse parse raw = Except.error e →
      parse (cleanContent raw) = none) := by
  constructor
  · intro j hj
    unfold normalizeResponse
    rw [hj]
  · intro e he
    unfold normalizeResponse at he
    cases hp : parse (cleanContent raw) with
    | none => rfl
    | some j => rw [hp] at he; exact absurd he (by simp)

/-- Witness for C10: a raw response that *is* the refusal phrase
申し訳ございません still yields the parsed value when the (here
all-accepting) parser succeeds on the cleaned content — the refusal
branch is unreachable. -/
theorem normalizeResponse_parse_bypass_witness :
    normalizeResponse (fun _ => some 7) "申し訳ございません".data =
      Except.ok 7 :=
  (normalizeResponse_parse_bypass (fun _ => some 7)
    "申し訳ございません".data).1 7 rfl

/-! ## String lemmas for the normalisation-idempotence claim -/

theorem leadsWith_iff (p l : List Char) :
    leadsWith p l = true ↔ ∃ r, l = p ++ r := by
  induction p generalizing l with
  | nil =>
    simp [leadsWith]
  | cons a ps ih =>
    cases l with
    | nil =>
      simp [leadsWith]
    | cons c cs =>
      simp only [leadsWith, Bool.and_eq_true, beq_iff_eq]
      constructor
      · rintro ⟨rfl, h⟩
        obtain ⟨r, rfl⟩ := (ih cs).mp h
        exact ⟨r, rfl⟩
      · rintro ⟨r, hr⟩
        rw [List.cons_append] at hr
        injection hr with h1 h2
        exact ⟨h1.symm, (ih cs).mpr ⟨r, h2⟩⟩

theorem leadsWith_fenceJson_fence3 {l : List Char}
    (h : leadsWith fenceJson l = true) : leadsWith fence3 l = true := by
  obtain ⟨r, rfl⟩ := (leadsWith_iff fenceJson l).mp h
  refine (leadsWith_iff fence3 _).mpr ⟨['j', 's', 'o', 'n'] ++ r, ?_⟩
  simp [fenceJson, fence3]

theorem ltrim_head {s : List Char} {c : Char} {t : List Char}
    (h : ltrim s = c :: t) : isWs c = false := by
  induction s with
  | nil => simp [ltrim] at h
  | cons a as ih =>
    by_cases hw : isWs a = true
    · rw [ltrim, List.dropWhile_cons, if_pos hw] at h
      exact ih h
    · rw [ltrim, List.dropWhile_cons, if_neg hw] at h
      injection h with h1 _
      rw [← h1]
      simpa using hw

theorem rtrim_append_ws (l : List Char) (c : Char) (h : isWs c = true) :
    rtrim (l ++ [c]) = rtrim l := by
  unfold rtrim
  rw [List.reverse_append]
  simp [ltrim, List.dropWhile_cons, h]

theorem rtrim_append_not_ws (l : List Char) (c : Char) (h : isWs c = false) :
    rtrim (l ++ [c]) = l ++ [c] := by
  unfold rtrim
  rw [List.reverse_append]
  rw [show ([c].reverse ++ l.reverse) = c :: l.reverse by simp]
  rw [ltrim, List.dropWhile_cons, if_neg (by simp [h])]
  simp

theorem rtrim_leadsWith {p l : List Char}
    (hnw : ∀ c ∈ p, isWs c = false) (h : leadsWith p l = true) :
    leadsWith p (rtrim l) = true := by
  obtain ⟨r, rfl⟩ := (leadsWith_iff p l).mp h
  unfold rtrim
  rw [List.reverse_append, ltrim, List.dropWhile_append]
  by_cases hemp : (List.dropWhile isWs r.reverse).isEmpty = true
  · rw [if_pos hemp]
    cases hp : p.reverse with
    | nil =>
      have hpnil : p = [] := by simpa using congrArg List.reverse hp
      subst hpnil
      simp [leadsWith]
    | cons c t =>
      have hcp : c ∈ p := by
        have : c ∈ p.reverse := by
          rw [hp]
          exact List.mem_cons_self c t
        simpa using this
      rw [List.dropWhile_cons, if_neg (by simp [hnw c hcp])]
      rw [← hp, List.reverse_reverse]
      exact (leadsWith_iff p p).mpr ⟨[], by simp⟩
  · rw [if_neg hemp]
    rw [List.reverse_append, List.reverse_reverse]
    exact (leadsWith_iff _ _).mpr ⟨(List.dropWhile isWs r.reverse).reverse, rfl⟩

theorem fence3_leadsWith_cut {u v : List Char}
    (h : leadsWith fence3 (u ++ '\n' :: v) = true) :
    leadsWith fence3 u = true := by
  match u with
  | [] => simp [fence3, leadsWith] at h
  | [a] => simp [fence3, leadsWith] at h
  | [a, b] => simp [fence3, leadsWith] at h
  | a :: b :: c :: t =>
    simp only [List.cons_append, fence3, leadsWith, Bool.and_eq_true] at h ⊢
    exact ⟨h.1, h.2.1, h.2.2.1, trivial⟩

theorem jsTrim_wrap (s : List Char) :
    jsTrim (wrapJsonFence s) = wrapJsonFence s := by
  unfold jsTrim
  have h1 : ltrim (wrapJsonFence s) = wrapJsonFence s := by
    rw [show wrapJsonFence s =
        '\x60' :: ("``json\n".data ++ (s ++ "\n```".data)) from by
      simp [wrapJsonFence]]
    rw [ltrim, List.dropWhile_cons, if_neg (by decide)]
  rw [h1]
  rw [show wrapJsonFence s =
      (("```json\n".data ++ s ++ "\n``".data) ++ ['\x60']) from by
    simp [wrapJsonFence]]
  rw [rtrim_append_not_ws _ _ (by decide)]

theorem stripLeadJson_wrap (s : List Char) :
    stripLeadJson (wrapJsonFence s) =
      List.dropWhile isWs (s ++ '\n' :: fence3) := by
  unfold stripLeadJson
  have hg1 : leadsWith fenceJson (wrapJsonFence s) = true := by
    refine (leadsWith_iff _ _).mpr ⟨'\n' :: (s ++ '\n' :: fence3), ?_⟩
    simp [wrapJsonFence, fenceJson, fence3]
  rw [if_pos hg1]
  have hdrop : (wrapJsonFence s).drop 7 = '\n' :: (s ++ '\n' :: fence3) := by
    rw [show wrapJsonFence s =
        "```json".data ++ ('\n' :: (s ++ '\n' :: fence3)) from by
      simp [wrapJsonFence, fence3]]
    rfl
  rw [hdrop, List.dropWhile_cons, if_pos (show isWs '\n' = true from by decide)]

theorem cleanContent_wrap (s : List Char) (hff : fenceFree s) :
    cleanContent (wrapJsonFence s) = jsTrim s := by
  unfold cleanContent stripFences
  rw [jsTrim_wrap, stripLeadJson_wrap]
  rw [List.dropWhile_append]
  cases hl : ltrim s with
  | nil =>
    rw [show (List.dropWhile isWs s).isEmpty = true from by
      rw [show List.dropWhile isWs s = ltrim s from rfl, hl]; rfl]
    rw [if_pos rfl]
    rw [show List.dropWhile isWs ('\n' :: fence3) = fence3 from by decide]
    rw [show stripLead3 fence3 = [] from by decide]
    rw [show stripTrail3 [] = [] from by decide]
    unfold jsTrim
    rw [hl]
    rfl
  | cons c t =>
    rw [show List.dropWhile isWs s = ltrim s from rfl, hl]
    rw [if_neg (by simp)]
    have hg2 : ¬ leadsWith fence3 ((c :: t) ++ '\n' :: fence3) = true := by
      intro hx
      have hu : leadsWith fence3 (c :: t) = true := fence3_leadsWith_cut hx
      have hlt : leadsWith fence3 (ltrim s) = true := by rw [hl]; exact hu
      have hjt : leadsWith fence3 (jsTrim s) = true := by
        unfold jsTrim
        exact rtrim_leadsWith (by decide) hlt
      rw [hff.1] at hjt
      exact Bool.false_ne_true hjt
    rw [show stripLead3 ((c :: t) ++ '\n' :: fence3) =
        (c :: t) ++ '\n' :: fence3 from by
      unfold stripLead3
      rw [if_neg hg2]]
    have hend : endsWithL ((c :: t) ++ '\n' :: fence3) fence3 = true := by
      unfold endsWithL
      rw [List.reverse_append]
      rw [show ('\n' :: fence3).reverse = '\x60' :: '\x60' :: '\x60' :: ['\n']
        from rfl]
      rw [show fence3.reverse = fence3 from rfl]
      simp [fence3, leadsWith]
    unfold stripTrail3
    rw [if_pos hend]
    rw [show (c :: t) ++ '\n' :: fence3 =
        ((c :: t) ++ ['\n']) ++ fence3 from by simp]
    rw [show (((c :: t) ++ ['\n']) ++ fence3).length - 3 =
        ((c :: t) ++ ['\n']).length from by simp [fence3]]
    rw [show (((c :: t) ++ ['\n']) ++ fence3).take (((c :: t) ++ ['\n']).length) =
        (c :: t) ++ ['\n'] from by
      rw [show ((c :: t) ++ ['\n']).length = ((c :: t) ++ ['\n']).length + 0
        from rfl]
      rw [List.take_append 0]
      simp]
    rw [rtrim_append_ws _ _ (by decide)]
    unfold jsTrim
    rw [hl]

theorem cleanContent_plain (s : List Char) (hff : fenceFree s) :
    cleanContent s = jsTrim s := by
  unfold cleanContent stripFences
  have h1 : stripLeadJson (jsTrim s) = jsTrim s := by
    unfold stripLeadJson
    rw [if_neg ?_]
    intro hx
    have := leadsWith_fenceJson_fence3 hx
    rw [hff.1] at this
    exact Bool.false_ne_true this
  have h2 : stripLead3 (jsTrim s) = jsTrim s := by
    unfold stripLead3
    rw [if_neg (by simp [hff.1])]
  have h3 : stripTrail3 (jsTrim s) = jsTrim s := by
    unfold stripTrail3
    rw [if_neg (by simp [hff.2])]
  rw [h1, h2, h3]

/-- C5 — Normalisation idempotence: for a fence-free string whose cleaned
content parses as JSON, `normalizeResponse` returns the same parsed
object on the bare string and on the string wrapped in a
```` ```json … ``` ```` fenced block. -/
theorem normalizeResponse_fence_idempotent {J : Type}
    (parse : List Char → Option J) (s : List Char) (j : J)
    (hff : fenceFree s) (hp : parse (cleanContent s) = some j) :
    normalizeResponse parse s = Except.ok j ∧
    normalizeResponse parse (wrapJsonFence s) = Except.ok j := by
  have hw : cleanContent (wrapJsonFence s) = cleanContent s := by
    rw [cleanContent_wrap s hff, cleanContent_plain s hff]
  constructor
  · unfold normalizeResponse
    rw [hp]
  · unfold normalizeResponse
    rw [hw, hp]

/-- Shared witness fixture: a parser accepting exactly the payload
`42`. -/
def parse42 : List Char → Option Nat := fun c =>
  if c = "42".data then some 42 else none

/-- Witness for C5: the fence-free payload `42` normalises to the same
parsed value bare and wrapped in ```` ```json … ``` ```` fences. -/
theorem normalizeResponse_fence_idempotent_witness :
    normalizeResponse parse42 "42".data = Except.ok 42 ∧
    normalizeResponse parse42 (wrapJsonFence "42".data) = Except.ok 42 :=
  normalizeResponse_fence_idempotent parse42 "42".data 42
    (by decide) (by decide)

end ReceiptAgent
